import Mathlib

/-!
Shallow embedding of the survey-response pipeline of `src/app.py`
(Flask application `survey_oracom`): upload validation, column renaming,
sorting, batched replace of the store, duplicate flagging on download,
Q1 aggregation and presence ratios, spreadsheet export, and single-row
update.  Database rows are modelled as records of optional strings
(`none` = SQL NULL / pandas NaN), the stored table as a list of rows.
-/

namespace Survey

/-- A survey response after the upload path's column renaming: the nine
canonical fields of `src/app.py` (`phone_number`, `efd`, `job_category`,
`employment_status`, `sex`, `status`, `q1`, `q2`, `q3`), each nullable. -/
structure Row where
  phone_number : Option String
  efd : Option String
  job_category : Option String
  employment_status : Option String
  sex : Option String
  status : Option String
  q1 : Option String
  q2 : Option String
  q3 : Option String
  deriving DecidableEq, Inhabited

/-- A persisted row: the store-assigned surrogate key `id` plus the nine
canonical fields.  Modelled from the spec: the `CREATE TABLE` schema of
`survey_responses` is not in the repository; the spec's data model (§3)
gives `id` as the store-assigned unique key, and `update_data` in
`src/app.py` addresses rows by `id`. -/
structure StoredRow where
  id : Nat
  fields : Row
  deriving DecidableEq, Inhabited

/-- The 4-field duplicate-group key used by
`df.duplicated(subset=['phone_number', 'efd', 'job_category', 'sex'], keep=False)`
in `download_file`. -/
def dupKey (r : Row) : Option String × Option String × Option String × Option String :=
  (r.phone_number, r.efd, r.job_category, r.sex)

/-- The list of duplicate-group keys of the stored table, in row order. -/
def keyList (store : List StoredRow) : List (Option String × Option String × Option String × Option String) :=
  store.map (fun sr => dupKey sr.fields)

/-- Number of stored rows sharing a given duplicate-group key. -/
def keyCount (store : List StoredRow) (k : Option String × Option String × Option String × Option String) : Nat :=
  ((keyList store).filter (fun x => decide (x = k))).length

/-- The per-row duplicate flags computed by `download_file` via
`df.duplicated(subset=[...], keep=False)`: a row is flagged iff its
4-field key occurs at least twice in the table (pandas `keep=False`
marks every member of each duplicate group, and treats NaN keys as
equal). -/
def dupFlags (store : List StoredRow) : List Bool :=
  store.map (fun sr => decide (2 ≤ keyCount store (dupKey sr.fields)))

/-- The required spreadsheet header names checked by `upload_file`
(`required_columns` in `src/app.py`). -/
def required_columns : List String :=
  ["Phone_Number", "EFD", "Job Category", "Employment Status", "Sex", "Status", "Q1", "Q2", "Q3"]

/-- The header check `all(col in df.columns for col in required_columns)`
of `upload_file`, over the uploaded sheet's header names. -/
def headersValid (headers : List String) : Bool :=
  required_columns.all (fun c => headers.contains c)

/-- The HTTP-level outcome of the validation step of `upload_file`:
`ok` when all required columns are present, otherwise the literal
error payload string returned with status 400. -/
def uploadMsg (headers : List String) : Except String Unit :=
  if headersValid headers then Except.ok () else Except.error "Missing required columns"

/-- The required columns absent from an uploaded header set (the code
never computes this; it is the information the spec's validation error
is supposed to carry). -/
def missingColumns (headers : List String) : List String :=
  required_columns.filter (fun c => !(headers.contains c))

/-- Encoding of one sort-key cell, mirroring pandas `sort_values`
semantics on a nullable column: values ascending, NaN placed last
(`na_position` defaults to `last`), so a cell maps to
(is-NaN, value) ordered lexicographically. -/
def optEnc (o : Option String) : Lex (Bool × String) :=
  toLex (o.isNone, o.getD "")

/-- The composite sort key of `df.sort_values(by=['phone_number', 'efd',
'job_category', 'sex'])`: lexicographic over the four fields in the
listed order. -/
def keyEnc (r : Row) :=
  toLex (optEnc r.phone_number,
    toLex (optEnc r.efd, toLex (optEnc r.job_category, optEnc r.sex)))

/-- The row ordering used by the upload path's `sort_values` call. -/
def keyLE (a b : Row) : Prop := keyEnc a ≤ keyEnc b

instance : DecidableRel keyLE :=
  fun a b => inferInstanceAs (Decidable (keyEnc a ≤ keyEnc b))

instance : IsTotal Row keyLE := ⟨fun a b => le_total (keyEnc a) (keyEnc b)⟩

instance : IsTrans Row keyLE := ⟨fun _ _ _ h1 h2 => le_trans h1 h2⟩

/-- The sorting step `df = df.sort_values(by=['phone_number', 'efd',
'job_category', 'sex'])` of `upload_file`: sort ascending by the
composite key. -/
def sortRows (rows : List Row) : List Row :=
  List.insertionSort keyLE rows

/-- The batch split of `upload_file`:
`for start in range(0, len(df), batch_size): batch = df.iloc[start:start + batch_size]`.
`range(0, n, bs)` has `(n + bs - 1) / bs` elements (for `0 < bs`), the
`i`-th start is `i * bs`, and the slice keeps at most `bs` rows. -/
def chunks (bs : Nat) (l : List Row) : List (List Row) :=
  (List.range ((l.length + bs - 1) / bs)).map (fun i => (l.drop (i * bs)).take bs)

/-- The store contents after a fully successful `upload_file` call:
headers validated, columns renamed, rows sorted, the table truncated,
and the sorted rows appended batch by batch.  When validation fails the
function returns before touching the store. -/
def uploadStore (pre : List Row) (headers : List String) (rows : List Row) : List Row :=
  if headersValid headers then (chunks 1000 (sortRows rows)).flatten else pre

/-- The store contents `upload_file` leaves behind as a function of the
failure point.  `TRUNCATE TABLE` is DDL and commits implicitly, and each
`batch.to_sql(..., con=get_db_engine(), if_exists='append')` runs on a
fresh engine connection that commits independently, so a failure while
inserting batch `k` (0-based) leaves the truncated table holding exactly
the batches before `k`; nothing rolls back to the pre-upload rows. -/
def uploadCommitSeq (_pre : List Row) (batches : List (List Row)) (failedBatch : Option Nat) : List Row :=
  match failedBatch with
  | none => batches.flatten
  | some k => (batches.take k).flatten

/-- Worker for `pySplit`: scans the character list, splitting at every
(leftmost, non-overlapping) occurrence of the two-character separator
comma-space, accumulating the current token in reverse. -/
def splitCS (acc : List Char) : List Char → List (List Char)
  | [] => [acc.reverse]
  | ',' :: ' ' :: rest => acc.reverse :: splitCS [] rest
  | c :: rest => splitCS (c :: acc) rest

/-- Python's `s.split(', ')` as used on `q1` cells in `get_data`:
split at each non-overlapping occurrence of the comma-space separator,
scanning left to right; an input without the separator yields the
one-element list holding the whole string. -/
def pySplit (s : String) : List String :=
  (splitCS [] s.data).map (fun cs => String.mk cs)

/-- The fixed list `q1_options` of `get_data`: the seven canonical Q1
option labels. -/
def q1_options : List String :=
  ["1. SEAH awareness", "2. Disciplinary action", "5. SemaUsikike",
   "6. SEAH engagements", "7. Risk assessment", "8. MD Communications",
   "9. Visible welfare"]

/-- Contribution of one non-null `q1` cell to the counter of `opt`:
the inner loop `for option in q1.split(', '): if option in q1_options:
q1_counts[option] += 1` bumps the counter of `opt` once per token of
the split that both passes the membership guard and equals `opt`. -/
def q1CountRow (s : String) (opt : String) : Nat :=
  ((pySplit s).filter (fun t => q1_options.contains t && t == opt)).length

/-- The value `q1_counts[opt]` computed by `get_data`: the loop walks
`df['q1'].dropna()` in row order and accumulates `q1CountRow` per cell. -/
def q1Count (rows : List Row) (opt : String) : Nat :=
  (rows.filterMap Row.q1).foldl (fun acc s => acc + q1CountRow s opt) 0

/-- Modelled from the spec: the number of rows whose `q1` field,
"interpreted as a comma-and-space-separated set of option labels,
contains that option" — the quantity the spec says each Q1 counter
equals.  Stated for comparison with `q1Count`, the code's counter. -/
def specQ1RowCount (rows : List Row) (opt : String) : Nat :=
  (rows.filter (fun r => match r.q1 with
    | some s => (pySplit s).contains opt
    | none => false)).length

/-- Whether a row's `q1` split mentions `opt` at most once (rows
satisfying this are counted identically by occurrence counting and by
row counting). -/
def noRepeatFor (opt : String) (r : Row) : Bool :=
  match r.q1 with
  | some s => decide (((pySplit s).filter (fun t => t == opt)).length ≤ 1)
  | none => true

/-- The sum of the seven per-option Q1 counters. -/
def q1TotalCount (rows : List Row) : Nat :=
  (q1_options.map (fun o => q1Count rows o)).sum

/-- Whether a row's `q1` cell is non-null and its comma-space split
contains at least one of the seven canonical option labels. -/
def hasCanonOption (r : Row) : Bool :=
  match r.q1 with
  | some s => (pySplit s).any (fun t => q1_options.contains t)
  | none => false

/-- Modelled from the spec: number of "rows with non-empty `q1`"
(non-null and not the empty string) — the lower bound the spec claims
for the summed Q1 counters. -/
def nonEmptyQ1Count (rows : List Row) : Nat :=
  (rows.filter (fun r => match r.q1 with
    | some s => !(s == "")
    | none => false)).length

/-- The `notna()` count used by `get_data` for the presence ratios:
`len(df[df[col].notna()])` counts the non-null cells of the column —
an empty string is not NaN and is counted. -/
def presenceCount (f : Row → Option String) (rows : List Row) : Nat :=
  (rows.filter (fun r => (f r).isSome)).length

/-- A presence ratio of `get_data`'s `q1_dist`:
`len(df[df[col].notna()]) / total_respondents if total_respondents > 0 else 0`. -/
def presenceFrac (f : Row → Option String) (rows : List Row) : ℚ :=
  if 0 < rows.length then (presenceCount f rows : ℚ) / (rows.length : ℚ) else 0

/-- Modelled from the spec: the fraction of rows where the field is
"present (non-null/non-empty)" out of the total row count — the value
the spec says the statistics endpoint returns.  Stated for comparison
with `presenceFrac`, the code's ratio. -/
def specPresenceFrac (f : Row → Option String) (rows : List Row) : ℚ :=
  if 0 < rows.length then
    (((rows.filter (fun r => match f r with
        | some s => !(s == "")
        | none => false)).length : ℚ) / (rows.length : ℚ))
  else 0

/-- The nine canonical column names, in the order the code lists them
(`columns` in `upload_file`, and the SET clause of `update_data`). -/
def canonicalFields : List String :=
  ["phone_number", "efd", "job_category", "employment_status", "sex", "status", "q1", "q2", "q3"]

/-- Access a row's canonical field by column name. -/
def fieldGet (r : Row) (k : String) : Option String :=
  if k == "phone_number" then r.phone_number
  else if k == "efd" then r.efd
  else if k == "job_category" then r.job_category
  else if k == "employment_status" then r.employment_status
  else if k == "sex" then r.sex
  else if k == "status" then r.status
  else if k == "q1" then r.q1
  else if k == "q2" then r.q2
  else if k == "q3" then r.q3
  else none

/-- The stored table's column order as `SELECT *` returns it: `id`
followed by the nine canonical fields.  Modelled from the spec: the
table schema is not in the repository; §3 lists `id` plus the nine
fields. -/
def tableColumns : List String :=
  "id" :: canonicalFields

/-- One sheet of the workbook produced by `download_file`: name, header
row, serialized data rows, and the (1-based) worksheet row numbers given
the highlight format. -/
structure Sheet where
  name : String
  header : List String
  dataRows : List (List String)
  highlighted : List Nat
  deriving DecidableEq, Inhabited

/-- Serialization of one stored row's cells in table column order
(NULL cells become empty cells). -/
def rowCells (sr : StoredRow) : List String :=
  toString sr.id :: canonicalFields.map (fun k => (fieldGet sr.fields k).getD "")

/-- The sheet `download_file` writes: `df.to_excel(writer, index=False,
sheet_name='SurveyData')` after appending the `is_duplicate` column,
then `worksheet.set_row(idx + 1, cell_format=format1)` for every
dataframe index `idx` whose row has a truthy `is_duplicate` flag
(`+ 1` skips the header row). -/
def buildDownloadSheet (store : List StoredRow) : Sheet :=
  { name := "SurveyData"
    header := tableColumns ++ ["is_duplicate"]
    dataRows := List.zipWith
      (fun sr b => rowCells sr ++ [if b then "True" else "False"]) store (dupFlags store)
    highlighted :=
      ((List.range store.length).filter (fun i => (dupFlags store).getD i false)).map
        (fun i => i + 1) }

/-- The workbook of `download_file`: the code writes exactly one sheet. -/
def downloadSheets (store : List StoredRow) : List Sheet :=
  [buildDownloadSheet store]

/-- `data.get(key)` on the JSON payload of `update_data`: the value
stored under the key, or `None` when the key is absent. -/
def pget (p : List (String × String)) (k : String) : Option String :=
  (p.find? (fun kv => kv.fst == k)).map (fun kv => kv.snd)

/-- The row contents written by `update_data`'s UPDATE statement: every
one of the nine canonical columns is SET to the payload's value for it,
absent payload keys becoming NULL via `data.get`. -/
def updateFields (p : List (String × String)) : Row :=
  { phone_number := pget p "phone_number"
    efd := pget p "efd"
    job_category := pget p "job_category"
    employment_status := pget p "employment_status"
    sex := pget p "sex"
    status := pget p "status"
    q1 := pget p "q1"
    q2 := pget p "q2"
    q3 := pget p "q3" }

/-- The store after `update_data(id)`: `UPDATE survey_responses SET ...
WHERE id=:id` rewrites the nine canonical columns of every row whose
`id` matches and leaves all other rows untouched. -/
def update_data (store : List StoredRow) (idv : Nat) (p : List (String × String)) : List StoredRow :=
  store.map (fun sr => if sr.id = idv then { id := sr.id, fields := updateFields p } else sr)

/-- Helper: build a row from its nine cells in canonical order. -/
def mkRow (p e j es sx st a b c : Option String) : Row :=
  ⟨p, e, j, es, sx, st, a, b, c⟩

/-- Helper: a row that is NULL everywhere. -/
def blankRow : Row :=
  mkRow none none none none none none none none none

/-- Helper: a row whose only non-NULL cell is `q1`. -/
def qRow (s : String) : Row :=
  mkRow none none none none none none (some s) none none

/-- Helper: a row whose only non-NULL cell is `phone_number`. -/
def phoneRow (p : String) : Row :=
  mkRow (some p) none none none none none none none none

/-- Helper: a row with the four duplicate-key cells set. -/
def scnRow (p e j sx : String) : Row :=
  mkRow (some p) (some e) (some j) none (some sx) none none none none

/-- The spec's duplicate scenario: rows 1 and 3 share the key
(555-0100, 2024-01, Clinical, F) and row 2 differs only in `sex`. -/
def scnStore : List StoredRow :=
  [⟨1, scnRow "555-0100" "2024-01" "Clinical" "F"⟩,
   ⟨2, scnRow "555-0100" "2024-01" "Clinical" "M"⟩,
   ⟨3, scnRow "555-0100" "2024-01" "Clinical" "F"⟩]

/-- Helper: the exact nine required headers. -/
def goodHeaders : List String :=
  ["Phone_Number", "EFD", "Job Category", "Employment Status", "Sex", "Status", "Q1", "Q2", "Q3"]

/-! ## Helper lemmas -/

theorem ceil_div_succ (n bs : Nat) (hbs : 0 < bs) (hn : 0 < n) :
    (n + bs - 1) / bs = (n - bs + bs - 1) / bs + 1 := by
  rcases n with _ | m
  · omega
  · have h1 : (m + 1 + bs - 1) = m + bs := by omega
    rw [h1, Nat.add_div_right m hbs]
    rcases le_or_lt (m + 1) bs with hle | hlt
    · have h2 : m + 1 - bs = 0 := by omega
      rw [h2]
      have h3 : (0 + bs - 1) / bs = 0 := Nat.div_eq_of_lt (by omega)
      have h4 : m / bs = 0 := Nat.div_eq_of_lt (by omega)
      omega
    · have h2 : m + 1 - bs + bs - 1 = m := by omega
      rw [h2]

theorem chunks_nil (bs : Nat) : chunks bs [] = [] := by
  rcases bs with _ | b
  · simp [chunks]
  · have h : b / (b + 1) = 0 := Nat.div_eq_of_lt (by omega)
    simp [chunks, h]

theorem chunks_cons (bs : Nat) (hbs : 0 < bs) (l : List Row) (hl : l ≠ []) :
    chunks bs l = l.take bs :: chunks bs (l.drop bs) := by
  have hn : 0 < l.length := List.length_pos.mpr hl
  have hdl : (l.drop bs).length = l.length - bs := List.length_drop bs l
  rw [chunks, chunks, hdl, ceil_div_succ l.length bs hbs hn, List.range_succ_eq_map]
  simp only [List.map_cons, List.map_map, Nat.zero_mul, List.drop_zero]
  refine congrArg (fun t => l.take bs :: t) ?_
  refine List.map_congr_left ?_
  intro i _
  simp only [Function.comp_apply, Nat.succ_mul, Nat.succ_eq_add_one]
  rw [List.drop_drop]
  refine congrArg (fun m => (l.drop m).take bs) ?_
  omega

theorem chunks_flatten_eq (bs : Nat) (hbs : 0 < bs) (l : List Row) :
    (chunks bs l).flatten = l := by
  by_cases hl : l = []
  · subst hl
    rw [chunks_nil]
    rfl
  · rw [chunks_cons bs hbs l hl]
    have ih := chunks_flatten_eq bs hbs (l.drop bs)
    simp only [List.flatten_cons, ih]
    exact List.take_append_drop bs l
termination_by l.length
decreasing_by
  simp only [List.length_drop]
  have hn : 0 < l.length := List.length_pos.mpr hl
  omega

/-! ## Claim theorems -/

/-- C2: the upload's replace sequence is NOT atomic.  Evaluating the
code's commit behaviour at a failing input: with pre-upload store
`[phoneRow "old"]` and two one-row batches, a failure while inserting
the second batch leaves the store holding exactly the first batch —
the truncate and the first batch insert stay committed, so the store
is not in its pre-upload state. -/
theorem upload_partial_commit :
    uploadCommitSeq [phoneRow "old"] [[phoneRow "new1"], [phoneRow "new2"]] (some 1)
        = [phoneRow "new1"] ∧
      uploadCommitSeq [phoneRow "old"] [[phoneRow "new1"], [phoneRow "new2"]] (some 1)
        ≠ [phoneRow "old"] := by
  constructor
  · rfl
  · decide

/-- C3 (amended): an upload missing at least one required header column
fails with the fixed validation error payload `Missing required columns`
(which does not name the missing columns) and leaves the store
unchanged: no discard or insert is performed. -/
theorem upload_missing_columns (pre : List Row) (headers : List String) (rows : List Row)
    (h : headersValid headers = false) :
    uploadStore pre headers rows = pre ∧
      uploadMsg headers = Except.error "Missing required columns" := by
  constructor
  · simp [uploadStore, h]
  · simp [uploadMsg, h]

/-- C3 witness: a header set missing every column but `Phone_Number`
is rejected with the fixed message and the store keeps its old row. -/
theorem upload_missing_columns_witness :
    uploadStore [phoneRow "old"] ["Phone_Number"] [blankRow] = [phoneRow "old"] ∧
      uploadMsg ["Phone_Number"] = Except.error "Missing required columns" :=
  upload_missing_columns [phoneRow "old"] ["Phone_Number"] [blankRow] (by decide)

/-- C3 counterexample: two uploads whose missing required column sets
differ (one lacks `Phone_Number`, the other lacks `EFD`) receive the
identical error value, so the validation error does not identify the
missing column set, refuting the claim as stated. -/
theorem upload_error_not_identifying :
    uploadMsg ["EFD", "Job Category", "Employment Status", "Sex", "Status", "Q1", "Q2", "Q3"]
        = uploadMsg ["Phone_Number", "Job Category", "Employment Status", "Sex", "Status", "Q1", "Q2", "Q3"] ∧
      missingColumns ["EFD", "Job Category", "Employment Status", "Sex", "Status", "Q1", "Q2", "Q3"]
        ≠ missingColumns ["Phone_Number", "Job Category", "Employment Status", "Sex", "Status", "Q1", "Q2", "Q3"] := by
  constructor
  · rfl
  · decide

/-- C5: the loader splits `n` normalized rows into `⌈n / 1000⌉`
consecutive batches (the unique `k` with `n ≤ 1000k < n + 1000`) of at
most 1000 rows each whose concatenation is the input, preserving order
within and across batches; 2500 rows give exactly the batch sizes
1000, 1000, 500, whose total stored count is 2500. -/
theorem upload_batching (l : List Row) :
    (chunks 1000 l).flatten = l ∧
      (∀ b ∈ chunks 1000 l, b.length ≤ 1000) ∧
      (l.length ≤ (chunks 1000 l).length * 1000 ∧
        (chunks 1000 l).length * 1000 < l.length + 1000) ∧
      (l.length = 2500 → (chunks 1000 l).map List.length = [1000, 1000, 500]) := by
  refine ⟨chunks_flatten_eq 1000 (by omega) l, ?_, ?_, ?_⟩
  · intro b hb
    rw [chunks] at hb
    rcases List.mem_map.mp hb with ⟨i, _, hbi⟩
    rw [← hbi, List.length_take]
    exact min_le_left 1000 _
  · have hlen : (chunks 1000 l).length = (l.length + 1000 - 1) / 1000 := by
      simp [chunks]
    omega
  · intro h
    have hne1 : l ≠ [] := by
      intro he
      rw [he] at h
      simp at h
    have e1 := chunks_cons 1000 (by omega) l hne1
    have hd1 : (l.drop 1000).length = 1500 := by simp [List.length_drop, h]
    have hne2 : l.drop 1000 ≠ [] := by
      intro he
      rw [he] at hd1
      simp at hd1
    have e2 := chunks_cons 1000 (by omega) (l.drop 1000) hne2
    have hd2 : ((l.drop 1000).drop 1000).length = 500 := by simp [List.length_drop, h]
    have hne3 : (l.drop 1000).drop 1000 ≠ [] := by
      intro he
      rw [he] at hd2
      simp at hd2
    have e3 := chunks_cons 1000 (by omega) ((l.drop 1000).drop 1000) hne3
    have hd3 : (((l.drop 1000).drop 1000).drop 1000).length = 0 := by
      simp [List.length_drop, h]
    have e4 : ((l.drop 1000).drop 1000).drop 1000 = [] :=
      List.eq_nil_of_length_eq_zero hd3
    rw [e1, e2, e3, e4, chunks_nil]
    simp only [List.map_cons, List.map_nil, List.length_take, List.length_drop, h, hd1, hd2]
    norm_num

/-- C5 witness: a concrete 2500-row input is split into batches of
sizes 1000, 1000, 500. -/
theorem upload_batching_witness :
    (chunks 1000 (List.replicate 2500 blankRow)).map List.length = [1000, 1000, 500] :=
  (upload_batching (List.replicate 2500 blankRow)).2.2.2 (List.length_replicate 2500 blankRow)

/-- C4: for every validated upload the stored rows are a permutation of
the input rows that is sorted ascending by the composite key
(`phone_number`, `efd`, `job_category`, `sex`), compared
lexicographically in that field order; the empty input is valid and
stores the empty set. -/
theorem upload_sorted (pre : List Row) (headers : List String) (rows : List Row)
    (h : headersValid headers = true) :
    (uploadStore pre headers rows).Perm rows ∧
      List.Sorted keyLE (uploadStore pre headers rows) ∧
      (rows = [] → uploadStore pre headers rows = []) := by
  have hu : uploadStore pre headers rows = sortRows rows := by
    rw [uploadStore, if_pos h]
    exact chunks_flatten_eq 1000 (by omega) (sortRows rows)
  rw [hu]
  refine ⟨List.perm_insertionSort keyLE rows, List.sorted_insertionSort keyLE rows, ?_⟩
  intro he
  rw [he]
  rfl

/-- C4 witness: a concrete two-row upload with valid headers is stored
as a sorted permutation of its input. -/
theorem upload_sorted_witness :
    (uploadStore [] goodHeaders [phoneRow "b", phoneRow "a"]).Perm [phoneRow "b", phoneRow "a"] ∧
      List.Sorted keyLE (uploadStore [] goodHeaders [phoneRow "b", phoneRow "a"]) ∧
      ([phoneRow "b", phoneRow "a"] = ([] : List Row) →
        uploadStore [] goodHeaders [phoneRow "b", phoneRow "a"] = []) :=
  upload_sorted [] goodHeaders [phoneRow "b", phoneRow "a"] (by decide)

/-- C6 (amended): each presence ratio of the statistics endpoint equals
the count of non-null cells (`notna`; empty strings count as present)
divided by the row count, so it always lies in [0, 1], and it is 0 for
the empty dataset. -/
theorem presence_frac_bounds (f : Row → Option String) (rows : List Row) :
    0 ≤ presenceFrac f rows ∧ presenceFrac f rows ≤ 1 ∧
      presenceFrac f ([] : List Row) = 0 := by
  by_cases hpos : 0 < rows.length
  · have hc : presenceCount f rows ≤ rows.length := List.length_filter_le _ _
    have hq : (0 : ℚ) < (rows.length : ℚ) := by exact_mod_cast hpos
    refine ⟨?_, ?_, by simp [presenceFrac]⟩
    · rw [presenceFrac, if_pos hpos]
      positivity
    · rw [presenceFrac, if_pos hpos, div_le_one hq]
      exact_mod_cast hc
  · refine ⟨?_, ?_, by simp [presenceFrac]⟩
    · rw [presenceFrac, if_neg hpos]
    · rw [presenceFrac, if_neg hpos]
      norm_num

/-- C6 counterexample: a dataset whose single row has `q1` equal to the
empty string.  The endpoint's ratio counts the empty string as present
(`notna`) and returns 1, while the claimed fraction of non-null,
non-empty cells is 0. -/
theorem presence_frac_empty_string_cex :
    presenceFrac Row.q1 [qRow ""] = 1 ∧ specPresenceFrac Row.q1 [qRow ""] = 0 ∧
      (1 : ℚ) ≠ 0 := by
  refine ⟨?_, ?_, by norm_num⟩
  · have hc : presenceCount Row.q1 [qRow ""] = 1 := by decide
    rw [presenceFrac, if_pos (by simp)]
    rw [hc]
    norm_num
  · have hc : ([qRow ""].filter (fun r => match Row.q1 r with
        | some s => !(s == "")
        | none => false)).length = 0 := by decide
    rw [specPresenceFrac, if_pos (by simp)]
    rw [hc]
    norm_num

theorem foldl_add_eq_sum (f : String → Nat) (l : List String) (n : Nat) :
    l.foldl (fun acc s => acc + f s) n = n + (l.map f).sum := by
  induction l generalizing n with
  | nil => simp
  | cons s t ih =>
    simp only [List.foldl_cons, List.map_cons, List.sum_cons]
    rw [ih]
    omega

theorem q1Count_eq_sum (rows : List Row) (opt : String) :
    q1Count rows opt = ((rows.filterMap Row.q1).map (fun s => q1CountRow s opt)).sum := by
  rw [q1Count, foldl_add_eq_sum]
  omega

theorem sum_map_add (l : List String) (f g : String → Nat) :
    (l.map (fun o => f o + g o)).sum = (l.map f).sum + (l.map g).sum := by
  induction l with
  | nil => simp
  | cons a t ih =>
    simp only [List.map_cons, List.sum_cons, ih]
    omega

theorem q1Count_cons (r : Row) (t : List Row) (opt : String) :
    q1Count (r :: t) opt =
      (match r.q1 with
        | some s => q1CountRow s opt
        | none => 0) + q1Count t opt := by
  rw [q1Count_eq_sum, q1Count_eq_sum]
  cases hq : r.q1 with
  | none => simp [List.filterMap_cons, hq]
  | some s => simp [List.filterMap_cons, hq]

theorem q1CountRow_guard (s opt : String) (hopt : opt ∈ q1_options) :
    q1CountRow s opt = ((pySplit s).filter (fun t => t == opt)).length := by
  rw [q1CountRow]
  refine congrArg List.length (List.filter_congr ?_)
  intro t _
  cases ht : t == opt
  · simp
  · have heq : t = opt := by simpa using ht
    subst heq
    simp [hopt]

theorem specQ1RowCount_cons (r : Row) (t : List Row) (opt : String) :
    specQ1RowCount (r :: t) opt =
      (match r.q1 with
        | some s => if (pySplit s).contains opt then 1 else 0
        | none => 0) + specQ1RowCount t opt := by
  rw [specQ1RowCount, List.filter_cons]
  cases hq : r.q1 with
  | none => simp [hq, specQ1RowCount]
  | some s =>
    by_cases hm : opt ∈ pySplit s
    · simp only [hq, List.elem_iff.mpr hm, if_true, List.length_cons]
      rw [specQ1RowCount]
      omega
    · have hcf : ¬ ((pySplit s).contains opt = true) := fun h => hm (List.elem_iff.mp h)
      simp only [hq]
      rw [if_neg hcf, if_neg hcf, specQ1RowCount]
      omega

/-- C7 (amended): for each canonical option the aggregator counts
occurrences of the option among the comma-and-space-separated tokens of
the rows' `q1` cells (a token repeated inside one cell is counted once
per occurrence); hence when no row repeats the option inside its cell,
the counter equals the number of rows whose `q1` token set contains the
option, and a row listing an option once increments exactly that
counter by 1. -/
theorem q1Count_row_semantics (rows : List Row) (opt : String)
    (hopt : opt ∈ q1_options)
    (hnorep : ∀ r ∈ rows, noRepeatFor opt r = true) :
    q1Count rows opt = specQ1RowCount rows opt := by
  induction rows with
  | nil => rfl
  | cons r t ih =>
    have ht := ih (fun r2 hr2 => hnorep r2 (List.mem_cons_of_mem r hr2))
    have hr := hnorep r (List.mem_cons_self r t)
    rw [q1Count_cons, specQ1RowCount_cons, ht]
    cases hq : r.q1 with
    | none => simp
    | some s =>
      simp only [hq]
      have hk : ((pySplit s).filter (fun t2 => t2 == opt)).length ≤ 1 := by
        rw [noRepeatFor, hq] at hr
        exact of_decide_eq_true hr
      rw [q1CountRow_guard s opt hopt]
      by_cases hc : (pySplit s).contains opt
      · have hmem : opt ∈ pySplit s := List.elem_iff.mp hc
        have hf : opt ∈ (pySplit s).filter (fun t2 => t2 == opt) :=
          List.mem_filter.mpr ⟨hmem, by simp⟩
        have hpos : 0 < ((pySplit s).filter (fun t2 => t2 == opt)).length :=
          List.length_pos.mpr (List.ne_nil_of_mem hf)
        have h1 : ((pySplit s).filter (fun t2 => t2 == opt)).length = 1 := by omega
        rw [h1, if_pos hc]
      · have h0 : ((pySplit s).filter (fun t2 => t2 == opt)).length = 0 := by
          by_contra hne
          have hpos : 0 < ((pySplit s).filter (fun t2 => t2 == opt)).length := by omega
          have hne2 : (pySplit s).filter (fun t2 => t2 == opt) ≠ [] := by
            intro he
            rw [he] at hpos
            simp at hpos
          rcases List.exists_mem_of_ne_nil _ hne2 with ⟨x, hx⟩
          rcases List.mem_filter.mp hx with ⟨hx1, hx2⟩
          have hxe : x = opt := by simpa using hx2
          subst hxe
          exact hc (List.elem_iff.mpr hx1)
        rw [h0, if_neg hc]

/-- C7 witness: the spec's scenario row
`q1 = "1. SEAH awareness, 7. Risk assessment"` increments both
corresponding counters by exactly 1. -/
theorem q1Count_row_semantics_witness :
    q1Count [qRow "1. SEAH awareness, 7. Risk assessment"] "1. SEAH awareness" = 1 ∧
      q1Count [qRow "1. SEAH awareness, 7. Risk assessment"] "7. Risk assessment" = 1 := by
  constructor
  · exact (q1Count_row_semantics [qRow "1. SEAH awareness, 7. Risk assessment"]
      "1. SEAH awareness" (by decide) (by decide)).trans (by decide)
  · exact (q1Count_row_semantics [qRow "1. SEAH awareness, 7. Risk assessment"]
      "7. Risk assessment" (by decide) (by decide)).trans (by decide)

/-- C7 counterexample: a row whose `q1` cell repeats one option
(`"7. Risk assessment, 7. Risk assessment"`).  The aggregator's counter
is 2 although only one row contains the option, refuting
"count of rows ... contains that option" as stated. -/
theorem q1Count_repeat_cex :
    q1Count [qRow "7. Risk assessment, 7. Risk assessment"] "7. Risk assessment" = 2 ∧
      specQ1RowCount [qRow "7. Risk assessment, 7. Risk assessment"] "7. Risk assessment" = 1 := by
  constructor
  · decide
  · decide

theorem q1TotalCount_cons (r : Row) (t : List Row) :
    q1TotalCount (r :: t) =
      (q1_options.map (fun o =>
        match r.q1 with
        | some s => q1CountRow s o
        | none => 0)).sum + q1TotalCount t := by
  rw [q1TotalCount, q1TotalCount]
  have h : (q1_options.map (fun o => q1Count (r :: t) o)) =
      q1_options.map (fun o =>
        (match r.q1 with
          | some s => q1CountRow s o
          | none => 0) + q1Count t o) := by
    refine List.map_congr_left ?_
    intro o _
    exact q1Count_cons r t o
  rw [h, sum_map_add]

/-- C8 (amended): the sum of the seven per-option Q1 counters is at
least the number of rows whose `q1` cell contains at least one canonical
option label among its comma-and-space-separated tokens.  (Rows with a
non-empty `q1` matching no canonical option contribute nothing, which is
what refutes the original bound.) -/
theorem q1TotalCount_lower_bound (rows : List Row) :
    (rows.filter hasCanonOption).length ≤ q1TotalCount rows := by
  induction rows with
  | nil => simp [q1TotalCount, q1Count]
  | cons r t ih =>
    rw [q1TotalCount_cons]
    cases hcan : hasCanonOption r
    · have hf : List.filter hasCanonOption (r :: t) = List.filter hasCanonOption t := by
        simp [List.filter_cons, hcan]
      rw [hf]
      omega
    · have hf : List.filter hasCanonOption (r :: t) = r :: List.filter hasCanonOption t := by
        simp [List.filter_cons, hcan]
      rw [hf, List.length_cons]
      have hcan2 : hasCanonOption r = true := hcan
      rw [hasCanonOption] at hcan2
      cases hq : r.q1 with
      | none =>
        rw [hq] at hcan2
        simp at hcan2
      | some s =>
        rw [hq] at hcan2
        have hany : (pySplit s).any (fun u => q1_options.contains u) = true := hcan2
        rw [List.any_eq_true] at hany
        rcases hany with ⟨tk, htk, htkin⟩
        have htkmem : tk ∈ q1_options := List.elem_iff.mp htkin
        have hrowpos : 1 ≤ q1CountRow s tk := by
          rw [q1CountRow]
          have hmf : tk ∈ (pySplit s).filter (fun u => q1_options.contains u && u == tk) :=
            List.mem_filter.mpr ⟨htk, by simp [htkmem]⟩
          exact List.length_pos.mpr (List.ne_nil_of_mem hmf)
        have hred : (q1_options.map (fun o =>
            match (some s : Option String) with
            | some s2 => q1CountRow s2 o
            | none => 0)) = q1_options.map (fun o => q1CountRow s o) := rfl
        rw [hred]
        have hmm : q1CountRow s tk ∈ q1_options.map (fun o => q1CountRow s o) :=
          List.mem_map_of_mem (fun o => q1CountRow s o) htkmem
        have hle := List.le_sum_of_mem hmm
        omega

/-- C8 counterexample: a single row whose `q1` is the non-empty string
`x`, matching no canonical option.  The summed per-option counts are 0
while one row has non-empty `q1`, so the claimed inequality
`sum ≥ rows-with-non-empty-q1` fails. -/
theorem q1TotalCount_undercount_cex :
    q1TotalCount [qRow "x"] = 0 ∧ nonEmptyQ1Count [qRow "x"] = 1 ∧
      ¬ (nonEmptyQ1Count [qRow "x"] ≤ q1TotalCount [qRow "x"]) := by
  refine ⟨by decide, by decide, by decide⟩

theorem filter_eq_range_count {K : Type} [DecidableEq K] (l : List K) (k d : K) :
    (l.filter (fun x => decide (x = k))).length =
      ((List.range l.length).filter (fun j => decide (l.getD j d = k))).length := by
  induction l with
  | nil => rfl
  | cons a t ih =>
    rw [List.length_cons, List.range_succ_eq_map, List.filter_cons, List.filter_cons]
    rw [List.filter_map Nat.succ (List.range t.length)]
    have hcomp : ((fun j => decide ((a :: t).getD j d = k)) ∘ Nat.succ) =
        fun j => decide (t.getD j d = k) := by
      funext j
      simp only [Function.comp_apply, Nat.succ_eq_add_one, List.getD_cons_succ]
    rw [hcomp]
    simp only [List.getD_cons_zero]
    by_cases hak : a = k
    · simp [hak, ih]
    · simp [hak, ih]

theorem length_le_one_of_all_eq {l : List Nat} (hnd : l.Nodup) (i : Nat)
    (h : ∀ j ∈ l, j = i) : l.length ≤ 1 := by
  cases l with
  | nil => simp
  | cons a t =>
    cases t with
    | nil => simp
    | cons b u =>
      have ha := h a (by simp)
      have hb := h b (by simp)
      rcases List.nodup_cons.mp hnd with ⟨hna, _⟩
      exact absurd (ha.trans hb.symm) (fun hab => hna (hab ▸ List.mem_cons_self b u))

theorem two_le_length_of_two_mem {l : List Nat} {i j : Nat} (hij : i ≠ j)
    (hi : i ∈ l) (hj : j ∈ l) : 2 ≤ l.length := by
  cases l with
  | nil => simp at hi
  | cons a t =>
    cases t with
    | nil =>
      simp only [List.mem_singleton] at hi hj
      exact absurd (hi.trans hj.symm) hij
    | cons b u => simp [List.length_cons]

theorem two_le_filter_eq_iff {K : Type} [DecidableEq K] (l : List K) (i : Nat) (d : K)
    (hi : i < l.length) :
    (2 ≤ (l.filter (fun x => decide (x = l.getD i d))).length ↔
      ∃ j, j < l.length ∧ j ≠ i ∧ l.getD j d = l.getD i d) := by
  rw [filter_eq_range_count l (l.getD i d) d]
  constructor
  · intro h2
    have hiS : i ∈ (List.range l.length).filter (fun j => decide (l.getD j d = l.getD i d)) :=
      List.mem_filter.mpr ⟨List.mem_range.mpr hi, decide_eq_true rfl⟩
    by_contra hno
    push_neg at hno
    have hall : ∀ j ∈ (List.range l.length).filter
        (fun j => decide (l.getD j d = l.getD i d)), j = i := by
      intro j hjS
      rcases List.mem_filter.mp hjS with ⟨hjr, hjd⟩
      by_contra hji
      exact absurd (of_decide_eq_true hjd) (hno j (List.mem_range.mp hjr) hji)
    have := length_le_one_of_all_eq ((List.nodup_range l.length).filter _) i hall
    omega
  · rintro ⟨j, hj, hji, hjk⟩
    have hiS : i ∈ (List.range l.length).filter (fun j => decide (l.getD j d = l.getD i d)) :=
      List.mem_filter.mpr ⟨List.mem_range.mpr hi, decide_eq_true rfl⟩
    have hjS : j ∈ (List.range l.length).filter (fun j => decide (l.getD j d = l.getD i d)) :=
      List.mem_filter.mpr ⟨List.mem_range.mpr hj, decide_eq_true hjk⟩
    exact two_le_length_of_two_mem hji hjS hiS

theorem getD_map_fields (store : List StoredRow) (i : Nat) (hi : i < store.length) :
    (keyList store).getD i (dupKey (default : StoredRow).fields) = dupKey ((store.getD i default).fields) := by
  rw [keyList]
  have hlen : i < (store.map (fun sr => dupKey sr.fields)).length := by
    rw [List.length_map]
    exact hi
  rw [List.getD_eq_getElem _ _ hlen, List.getElem_map, List.getD_eq_getElem _ _ hi]

theorem dupFlags_getD (store : List StoredRow) (i : Nat) (hi : i < store.length) :
    (dupFlags store).getD i false =
      decide (2 ≤ keyCount store (dupKey ((store.getD i default).fields))) := by
  rw [dupFlags]
  have hlen : i < (store.map
      (fun sr => decide (2 ≤ keyCount store (dupKey sr.fields)))).length := by
    rw [List.length_map]
    exact hi
  rw [List.getD_eq_getElem _ _ hlen, List.getElem_map, List.getD_eq_getElem _ _ hi]

theorem dup_flag_iff (store : List StoredRow) (i : Nat) (hi : i < store.length) :
    ((dupFlags store).getD i false = true ↔
      ∃ j, j < store.length ∧ j ≠ i ∧
        dupKey ((store.getD j default).fields) = dupKey ((store.getD i default).fields)) := by
  have hkl : i < (keyList store).length := by
    rw [keyList, List.length_map]
    exact hi
  have hiff := two_le_filter_eq_iff (keyList store) i (dupKey (default : StoredRow).fields) hkl
  rw [getD_map_fields store i hi] at hiff
  rw [dupFlags_getD store i hi, decide_eq_true_eq, keyCount]
  rw [hiff]
  constructor
  · rintro ⟨j, hj, hji, hjk⟩
    rw [keyList, List.length_map] at hj
    rw [getD_map_fields store j hj] at hjk
    exact ⟨j, hj, hji, hjk⟩
  · rintro ⟨j, hj, hji, hjk⟩
    refine ⟨j, ?_, hji, ?_⟩
    · rw [keyList, List.length_map]
      exact hj
    · rw [getD_map_fields store j hj]
      exact hjk

/-- C1: the duplicate flag of stored row `i` computed on the download
path is true iff some other row (a different position) has the identical
(`phone_number`, `efd`, `job_category`, `sex`) key; moreover whenever
two distinct rows share a key both are flagged (the relation is
symmetric) and a flagged row's key occurs at least twice (every
duplicate class has size at least 2). -/
theorem dup_flag_spec (store : List StoredRow) (i : Nat) (hi : i < store.length) :
    ((dupFlags store).getD i false = true ↔
        ∃ j, j < store.length ∧ j ≠ i ∧
          dupKey ((store.getD j default).fields) = dupKey ((store.getD i default).fields)) ∧
      (∀ j, j < store.length → j ≠ i →
        dupKey ((store.getD j default).fields) = dupKey ((store.getD i default).fields) →
        (dupFlags store).getD i false = true ∧ (dupFlags store).getD j false = true) ∧
      ((dupFlags store).getD i false = true →
        2 ≤ keyCount store (dupKey ((store.getD i default).fields))) := by
  refine ⟨dup_flag_iff store i hi, ?_, ?_⟩
  · intro j hj hji hjk
    constructor
    · exact (dup_flag_iff store i hi).mpr ⟨j, hj, hji, hjk⟩
    · exact (dup_flag_iff store j hj).mpr ⟨i, hi, fun hij => hji hij.symm, hjk.symm⟩
  · intro hflag
    have := dupFlags_getD store i hi
    rw [this, decide_eq_true_eq] at hflag
    exact hflag

/-- C1 witness: in the spec's three-row scenario (rows 0 and 2 share the
key (555-0100, 2024-01, Clinical, F); row 1 differs in `sex`), row 0's
flag is characterized by the existence of its partner row 2. -/
theorem dup_flag_spec_witness :
    ((dupFlags scnStore).getD 0 false = true ↔
        ∃ j, j < scnStore.length ∧ j ≠ 0 ∧
          dupKey ((scnStore.getD j default).fields) =
            dupKey ((scnStore.getD 0 default).fields)) ∧
      (∀ j, j < scnStore.length → j ≠ 0 →
        dupKey ((scnStore.getD j default).fields) =
          dupKey ((scnStore.getD 0 default).fields) →
        (dupFlags scnStore).getD 0 false = true ∧
          (dupFlags scnStore).getD j false = true) ∧
      ((dupFlags scnStore).getD 0 false = true →
        2 ≤ keyCount scnStore (dupKey ((scnStore.getD 0 default).fields))) :=
  dup_flag_spec scnStore 0 (by decide)

/-- C9: the download workbook has exactly one sheet; its header row is
the stored column order followed by the derived `is_duplicate` column;
a worksheet row receives the highlight format iff the corresponding
stored row's duplicate flag is set (the header row, worksheet row 0, is
never highlighted); and there is one data row per stored row. -/
theorem download_sheet_spec (store : List StoredRow) (i : Nat) (hi : i < store.length) :
    (downloadSheets store).length = 1 ∧
      (buildDownloadSheet store).header = tableColumns ++ ["is_duplicate"] ∧
      ((i + 1) ∈ (buildDownloadSheet store).highlighted ↔
        (dupFlags store).getD i false = true) ∧
      0 ∉ (buildDownloadSheet store).highlighted ∧
      (buildDownloadSheet store).dataRows.length = store.length := by
  refine ⟨rfl, rfl, ?_, ?_, ?_⟩
  · rw [buildDownloadSheet]
    simp only [List.mem_map, List.mem_filter, List.mem_range]
    constructor
    · rintro ⟨a, ⟨_, hfl⟩, hai⟩
      have : a = i := by omega
      rw [← this]
      exact hfl
    · intro hfl
      exact ⟨i, ⟨hi, hfl⟩, rfl⟩
  · rw [buildDownloadSheet]
    simp only [List.mem_map, List.mem_filter, List.mem_range]
    rintro ⟨a, _, ha⟩
    omega
  · rw [buildDownloadSheet]
    simp only [List.length_zipWith, dupFlags, List.length_map]
    omega

/-- C9 witness: in the three-row duplicate scenario, worksheet row 1 is
highlighted iff stored row 0 is flagged, and the header ends in
`is_duplicate`. -/
theorem download_sheet_spec_witness :
    (downloadSheets scnStore).length = 1 ∧
      (buildDownloadSheet scnStore).header = tableColumns ++ ["is_duplicate"] ∧
      ((0 + 1) ∈ (buildDownloadSheet scnStore).highlighted ↔
        (dupFlags scnStore).getD 0 false = true) ∧
      0 ∉ (buildDownloadSheet scnStore).highlighted ∧
      (buildDownloadSheet scnStore).dataRows.length = scnStore.length :=
  download_sheet_spec scnStore 0 (by decide)

theorem fieldGet_updateFields (p : List (String × String)) :
    ∀ k ∈ canonicalFields, fieldGet (updateFields p) k = pget p k := by
  intro k hk
  simp only [canonicalFields, List.mem_cons, List.not_mem_nil, or_false] at hk
  rcases hk with rfl | rfl | rfl | rfl | rfl | rfl | rfl | rfl | rfl
  all_goals rfl

theorem pget_absent (p : List (String × String)) (k : String)
    (h : ∀ kv ∈ p, kv.fst ≠ k) : pget p k = none := by
  rw [pget]
  have hf : p.find? (fun kv => kv.fst == k) = none := by
    refine List.find?_eq_none.mpr ?_
    intro kv hkv
    simp only [beq_eq_false_iff_ne, ne_eq, Bool.not_eq_true]
    exact h kv hkv
  rw [hf]
  rfl

theorem update_data_getD (store : List StoredRow) (idv : Nat) (p : List (String × String))
    (i : Nat) (hi : i < store.length) :
    (update_data store idv p).getD i default =
      (if (store.getD i default).id = idv then
        { id := (store.getD i default).id, fields := updateFields p }
      else store.getD i default) := by
  rw [update_data]
  have hlen : i < (store.map (fun sr =>
      if sr.id = idv then { id := sr.id, fields := updateFields p } else sr)).length := by
    rw [List.length_map]
    exact hi
  rw [List.getD_eq_getElem _ _ hlen, List.getElem_map, List.getD_eq_getElem _ _ hi]

/-- C10: updating by an existing `id` overwrites all nine canonical
fields of every matching row with the payload's values, writes NULL for
any canonical field absent from the payload, and leaves rows with a
different `id` (and the table length) unchanged. -/
theorem update_data_spec (store : List StoredRow) (idv : Nat) (p : List (String × String))
    (i : Nat) (hi : i < store.length) :
    (update_data store idv p).length = store.length ∧
      ((store.getD i default).id = idv →
        ∀ k ∈ canonicalFields,
          fieldGet ((update_data store idv p).getD i default).fields k = pget p k) ∧
      ((store.getD i default).id = idv →
        ∀ k ∈ canonicalFields, (∀ kv ∈ p, kv.fst ≠ k) →
          fieldGet ((update_data store idv p).getD i default).fields k = none) ∧
      ((store.getD i default).id ≠ idv →
        (update_data store idv p).getD i default = store.getD i default) := by
  refine ⟨?_, ?_, ?_, ?_⟩
  · rw [update_data, List.length_map]
  · intro hid k hk
    rw [update_data_getD store idv p i hi, if_pos hid]
    exact fieldGet_updateFields p k hk
  · intro hid k hk habs
    rw [update_data_getD store idv p i hi, if_pos hid]
    rw [fieldGet_updateFields p k hk]
    exact pget_absent p k habs
  · intro hid
    rw [update_data_getD store idv p i hi, if_neg hid]

/-- C10 witness: a two-row store updated at `id` 1 with a payload
holding only `phone_number`: the matching row's nine fields come from
the payload (so e.g. an absent field like `efd` becomes NULL) and the
row with `id` 2 is untouched. -/
theorem update_data_spec_witness :
    (update_data [⟨1, phoneRow "old"⟩, ⟨2, blankRow⟩] 1 [("phone_number", "x")]).length =
        ([⟨1, phoneRow "old"⟩, ⟨2, blankRow⟩] : List StoredRow).length ∧
      ((([⟨1, phoneRow "old"⟩, ⟨2, blankRow⟩] : List StoredRow).getD 0 default).id = 1 →
        ∀ k ∈ canonicalFields,
          fieldGet ((update_data [⟨1, phoneRow "old"⟩, ⟨2, blankRow⟩] 1
            [("phone_number", "x")]).getD 0 default).fields k =
              pget [("phone_number", "x")] k) ∧
      ((([⟨1, phoneRow "old"⟩, ⟨2, blankRow⟩] : List StoredRow).getD 0 default).id = 1 →
        ∀ k ∈ canonicalFields, (∀ kv ∈ [("phone_number", "x")], kv.fst ≠ k) →
          fieldGet ((update_data [⟨1, phoneRow "old"⟩, ⟨2, blankRow⟩] 1
            [("phone_number", "x")]).getD 0 default).fields k = none) ∧
      ((([⟨1, phoneRow "old"⟩, ⟨2, blankRow⟩] : List StoredRow).getD 0 default).id ≠ 1 →
        (update_data [⟨1, phoneRow "old"⟩, ⟨2, blankRow⟩] 1
          [("phone_number", "x")]).getD 0 default =
            ([⟨1, phoneRow "old"⟩, ⟨2, blankRow⟩] : List StoredRow).getD 0 default) :=
  update_data_spec [⟨1, phoneRow "old"⟩, ⟨2, blankRow⟩] 1 [("phone_number", "x")] 0 (by decide)

end Survey
